import Mathlib

/-!
Verification of the request-framing core of `probably-not/server-scratch`.

The repository has three Go source files:
* `internal/http/parser.go` — the pure framing function `IsRequestComplete`
  over an accumulated byte buffer, used by the gnet backend;
* `internal/evio/handler.go` — the evio backend: per-connection callbacks
  (`Opened`, `Data`, ...) and a duplicated copy `isRequestComplete` of the
  framing function;
* `internal/loop/gnet/engine.go` — the gnet backend: per-connection callbacks
  (`OnOpened`, `React`, ...), calling `internalHttp.IsRequestComplete`.

Bytes are modelled as `Nat` (the numeric value of the Go `byte`); buffers are
`List Nat`.  Go's `(bool, error)` return value is modelled as
`Bool × Option GoError`: `(false, none)` is the INCOMPLETE verdict,
`(true, none)` is COMPLETE, and `(_, some e)` is a MALFORMED verdict with the
particular error the Go code returns.
-/

/-- Turn a string literal into the list of its byte values (ASCII inputs
only are used below, so `Char.toNat` agrees with the UTF-8 bytes). -/
def strBytes (s : String) : List Nat :=
  s.toList.map Char.toNat

/-- Boolean test that `s` occurs at the very start of `l`
(the inner comparison loop of Go's `bytes.Index`). -/
def startsWith : List Nat → List Nat → Bool
  | [], _ => true
  | _ :: _, [] => false
  | a :: s, b :: l => a == b && startsWith s l

/-- Model of Go's `bytes.Index(data, sep)`: the index of the first occurrence
of `sep` inside `data`, or `none` where Go returns `-1`. -/
def bytesIndex (sep : List Nat) : List Nat → Option Nat
  | [] => if startsWith sep [] then some 0 else none
  | b :: t =>
    if startsWith sep (b :: t) then some 0
    else (bytesIndex sep t).map (· + 1)

/-- Model of Go's `strconv.ParseInt(string(s), 10, 64)`: an optional single
leading sign, then at least one decimal digit, and the value must fit in a
signed 64-bit integer; `none` models a non-nil error (syntax or range). -/
def goParseInt64 (s : List Nat) : Option Int :=
  match s with
  | [] => none
  | c :: rest =>
    let neg : Bool := c == 45
    let digits : List Nat := if c == 45 || c == 43 then rest else c :: rest
    if digits = [] then none
    else if digits.all (fun d => 48 ≤ d && d ≤ 57) then
      let v : Nat := digits.foldl (fun acc d => acc * 10 + (d - 48)) 0
      if neg then
        if v ≤ 2 ^ 63 then some (-(v : Int)) else none
      else
        if v ≤ 2 ^ 63 - 1 then some (v : Int) else none
    else none

/-- The distinct non-nil `error` values the framing functions can return:
the package-level `errBadRequest`, or an error from `strconv.ParseInt`. -/
inductive GoError where
  | badRequest
  | numError
  deriving DecidableEq, Repr

namespace Http

/-- From `internal/http/parser.go`: `crlf = []byte{'\r', '\n'}`. -/
def crlf : List Nat := [13, 10]

/-- From `internal/http/parser.go`: `headerTerminator = append(crlf, crlf...)`. -/
def headerTerminator : List Nat := crlf ++ crlf

/-- From `internal/http/parser.go`: `contentLengthHeader = []byte("Content-Length: ")`. -/
def contentLengthHeader : List Nat := strBytes "Content-Length: "

/-- From `internal/http/parser.go`: `contentLengthHeaderLength = len(contentLengthHeader)`. -/
def contentLengthHeaderLength : Nat := contentLengthHeader.length

/-- Embedding of `IsRequestComplete` from `internal/http/parser.go`. -/
def IsRequestComplete (data : List Nat) : Bool × Option GoError :=
  match bytesIndex headerTerminator data with
  | none => (false, none)
  | some htIdx =>
    let htEndIdx := htIdx + 4
    match bytesIndex contentLengthHeader data with
    | none =>
      if htEndIdx = data.length then (true, none)
      else (false, some GoError.badRequest)
    | some clIdx =>
      match bytesIndex crlf (data.drop clIdx) with
      | none => (false, some GoError.badRequest)
      | some rel =>
        let clEndIdx := rel + clIdx
        if data.length ≤ htEndIdx then (false, none)
        else
          match goParseInt64
              ((data.drop (clIdx + contentLengthHeaderLength)).take
                (clEndIdx - (clIdx + contentLengthHeaderLength))) with
          | none => (false, some GoError.numError)
          | some clen =>
            if (data.length : Int) - (htEndIdx : Int) < clen then (false, none)
            else (true, none)

end Http

/-- The reactor actions the embedded callbacks return (`gnet.GoAction` /
`evio.GoAction`): continue as normal, close this connection, or shut the
server down.  Only the first two are produced by the callbacks modelled
here. -/
inductive GoAction where
  | normal
  | close
  | shutdown
  deriving DecidableEq, Repr

/-- Result of one readable-data callback: the bytes handed back to the
reactor to write (`[]` models a `nil` slice), the returned action, and the
connection's stored `InputStream` buffer after the callback ends. -/
structure ReactOut where
  out : List Nat
  action : GoAction
  ctx : List Nat
  deriving DecidableEq, Repr

/-- Modelled from the spec: §4.1 ByteCursor `begin(newBytes)` — the library
type `evio.InputStream` (a dependency, not under `src/`) appends the new
bytes to the stored buffer and returns the full accumulated view. -/
def streamBegin (stored newBytes : List Nat) : List Nat :=
  stored ++ newBytes

/-- Modelled from the spec: §4.1 ByteCursor `end(remainder)` — the library
type `evio.InputStream` replaces the stored buffer with `remainder`. -/
def streamEnd (remainder : List Nat) : List Nat :=
  remainder

namespace Gnet

/-- Embedding of `Engine.OnOpened` from `internal/loop/gnet/engine.go`:
the fresh connection context is the empty buffer; if the shutdown context is
already done the connection is closed immediately.  Returns the written
bytes and the action. -/
def OnOpened (shutdownSet : Bool) : List Nat × GoAction :=
  if shutdownSet then ([], GoAction.close) else ([], GoAction.normal)

/-- Embedding of `Engine.React` from `internal/loop/gnet/engine.go`.

`shutdownSet` models `e.ctx.Done()` being ready; `ctxBuf` is the
`evio.InputStream` stored on the connection; `input` is the delivered chunk.
The request decoding, handler invocation and response serialization
(`http.ReadRequest`, `e.httpHandler.ServeHTTP`, `res.WriteToBuf`) are
external collaborators and are abstracted as `dispatch`, where `none` models
any of their error paths (each of which makes `React` return `nil` bytes and
`Close`) and `some resp` models the serialized response bytes. -/
def React (shutdownSet : Bool) (dispatch : List Nat → Option (List Nat))
    (ctxBuf input : List Nat) : ReactOut :=
  if input.length = 0 then ⟨[], GoAction.normal, ctxBuf⟩
  else
    let data := streamBegin ctxBuf input
    match Http.IsRequestComplete data with
    | (_, some _) => ⟨[], GoAction.close, data⟩
    | (false, none) => ⟨[], GoAction.normal, streamEnd data⟩
    | (true, none) =>
      match dispatch data with
      | none => ⟨[], GoAction.close, streamEnd data⟩
      | some resp =>
        if shutdownSet then ⟨resp, GoAction.close, streamEnd data⟩
        else ⟨resp, GoAction.normal, []⟩

end Gnet

namespace Evio

/-- From `internal/evio/handler.go`: `crlf = []byte{'\r', '\n'}`. -/
def crlf : List Nat := [13, 10]

/-- From `internal/evio/handler.go`: `headerTerminator = append(crlf, crlf...)`. -/
def headerTerminator : List Nat := crlf ++ crlf

/-- From `internal/evio/handler.go`: `contentLengthHeader = []byte("Content-Length: ")`. -/
def contentLengthHeader : List Nat := strBytes "Content-Length: "

/-- From `internal/evio/handler.go`: `contentLengthHeaderLength = len(contentLengthHeader)`. -/
def contentLengthHeaderLength : Nat := contentLengthHeader.length

/-- Embedding of the duplicated `isRequestComplete` from
`internal/evio/handler.go`. -/
def isRequestComplete (data : List Nat) : Bool × Option GoError :=
  match bytesIndex headerTerminator data with
  | none => (false, none)
  | some htIdx =>
    let htEndIdx := htIdx + 4
    match bytesIndex contentLengthHeader data with
    | none =>
      if htEndIdx = data.length then (true, none)
      else (false, some GoError.badRequest)
    | some clIdx =>
      match bytesIndex crlf (data.drop clIdx) with
      | none => (false, some GoError.badRequest)
      | some rel =>
        let clEndIdx := rel + clIdx
        if data.length ≤ htEndIdx then (false, none)
        else
          match goParseInt64
              ((data.drop (clIdx + contentLengthHeaderLength)).take
                (clEndIdx - (clIdx + contentLengthHeaderLength))) with
          | none => (false, some GoError.numError)
          | some clen =>
            if (data.length : Int) - (htEndIdx : Int) < clen then (false, none)
            else (true, none)

/-- Embedding of `handler.Opened` from `internal/evio/handler.go`: the fresh
connection context is the empty buffer; under shutdown the connection is
closed immediately.  The constant default `evio.Options{}` return value is
omitted. -/
def Opened (shutdownSet : Bool) : List Nat × GoAction :=
  if shutdownSet then ([], GoAction.close) else ([], GoAction.normal)

/-- Embedding of `handler.Data` from `internal/evio/handler.go`.

Same abstraction as `Gnet.React` for the decode/serve/serialize collaborators
(`http.ReadRequest`, `readall`, `res.Write`), abstracted as `dispatch`.  The
one behavioural difference from `Gnet.React` is the shutdown branch: `Data`
returns `nil` bytes together with `evio.Close`, discarding the serialized
response. -/
def Data (shutdownSet : Bool) (dispatch : List Nat → Option (List Nat))
    (ctxBuf input : List Nat) : ReactOut :=
  if input.length = 0 then ⟨[], GoAction.normal, ctxBuf⟩
  else
    let data := streamBegin ctxBuf input
    match isRequestComplete data with
    | (_, some _) => ⟨[], GoAction.close, data⟩
    | (false, none) => ⟨[], GoAction.normal, streamEnd data⟩
    | (true, none) =>
      match dispatch data with
      | none => ⟨[], GoAction.close, streamEnd data⟩
      | some resp =>
        if shutdownSet then ⟨[], GoAction.close, streamEnd data⟩
        else ⟨resp, GoAction.normal, []⟩

end Evio

/-- Concatenation of a chunk list (how a split request is reassembled). -/
def joinChunks : List (List Nat) → List Nat
  | [] => []
  | c :: cs => c ++ joinChunks cs

/-- Outcome of feeding a sequence of chunks through the accumulate/evaluate
loop of `Gnet.React`: still waiting for more bytes, stopped at the first
COMPLETE verdict (with the framed buffer handed to decoding), or stopped at
the first MALFORMED verdict. -/
inductive FeedOutcome where
  | pending (buf : List Nat)
  | done (framed : List Nat)
  | failed (buf : List Nat)
  deriving DecidableEq, Repr

/-- The `begin`/`evaluate`/`end` cycle of `Gnet.React`, iterated over a list
of delivered chunks: each chunk is appended to the accumulated buffer and the
buffer re-evaluated; the loop continues only on an INCOMPLETE verdict. -/
def feedChunks (buf : List Nat) : List (List Nat) → FeedOutcome
  | [] => FeedOutcome.pending buf
  | ch :: rest =>
    match Http.IsRequestComplete (buf ++ ch) with
    | (false, none) => feedChunks (buf ++ ch) rest
    | (true, none) => FeedOutcome.done (buf ++ ch)
    | (_, some _) => FeedOutcome.failed (buf ++ ch)

/-- A single well-formed request for the framing algorithm: the header block
`head`, the terminator, and a body that is either empty with no
`Content-Length` token anywhere, or consists of exactly the declared number
`n ≥ 1` of bytes, declared by a `Content-Length` header that lies entirely
before the terminator.  `bytesIndex … = some head.length` pins the terminator
occurrence used by the framer to the real end of the headers. -/
def WellFormedReq (head body data : List Nat) (n : Nat) : Prop :=
  data = head ++ Http.headerTerminator ++ body ∧
  bytesIndex Http.headerTerminator data = some head.length ∧
  ((bytesIndex Http.contentLengthHeader data = none ∧ body = []) ∨
   (∃ c r,
      bytesIndex Http.contentLengthHeader data = some c ∧
      c + Http.contentLengthHeaderLength ≤ head.length ∧
      bytesIndex Http.crlf (data.drop c) = some r ∧
      goParseInt64 ((data.drop (c + Http.contentLengthHeaderLength)).take
        ((r + c) - (c + Http.contentLengthHeaderLength))) = some (n : Int) ∧
      body.length = n ∧ 1 ≤ n))

theorem startsWith_iff {s l : List Nat} : startsWith s l = true ↔ s <+: l := by
  induction s generalizing l with
  | nil => simp [startsWith]
  | cons a s ih =>
    cases l with
    | nil => simp [startsWith]
    | cons b t =>
      simp only [startsWith, Bool.and_eq_true, beq_iff_eq, ih, List.cons_prefix_cons]

theorem startsWith_length {s l : List Nat} (h : startsWith s l = true) :
    s.length ≤ l.length :=
  (startsWith_iff.mp h).length_le

theorem bytesIndex_some_spec {s d : List Nat} {i : Nat}
    (h : bytesIndex s d = some i) :
    startsWith s (d.drop i) = true ∧ ∀ j, j < i → startsWith s (d.drop j) = false := by
  induction d generalizing i with
  | nil =>
    by_cases hs : startsWith s [] = true
    · simp [bytesIndex, hs] at h
      subst h
      exact ⟨hs, by omega⟩
    · simp [bytesIndex, Bool.not_eq_true] at hs
      simp [bytesIndex, hs] at h
  | cons b t ih =>
    by_cases hs : startsWith s (b :: t) = true
    · simp [bytesIndex, hs] at h
      subst h
      exact ⟨hs, by omega⟩
    · have hs' : startsWith s (b :: t) = false := by
        simpa [Bool.not_eq_true] using hs
      simp [bytesIndex, hs'] at h
      obtain ⟨i', hi', rfl⟩ := h
      obtain ⟨h1, h2⟩ := ih hi'
      refine ⟨by simpa using h1, ?_⟩
      intro j hj
      cases j with
      | zero => simpa using hs'
      | succ j' => simpa using h2 j' (by omega)

theorem bytesIndex_none_spec {s d : List Nat} (h : bytesIndex s d = none) :
    ∀ j, startsWith s (d.drop j) = false := by
  induction d with
  | nil =>
    by_cases hs : startsWith s [] = true
    · simp [bytesIndex, hs] at h
    · intro j
      simpa [Bool.not_eq_true] using hs
  | cons b t ih =>
    by_cases hs : startsWith s (b :: t) = true
    · simp [bytesIndex, hs] at h
    · have hs' : startsWith s (b :: t) = false := by
        simpa [Bool.not_eq_true] using hs
      simp [bytesIndex, hs'] at h
      intro j
      cases j with
      | zero => simpa using hs'
      | succ j' => simpa using ih h j'

theorem bytesIndex_eq_some {s d : List Nat} {i : Nat}
    (h1 : startsWith s (d.drop i) = true)
    (h2 : ∀ j, j < i → startsWith s (d.drop j) = false) :
    bytesIndex s d = some i := by
  induction d generalizing i with
  | nil =>
    cases i with
    | zero => simp only [List.drop_nil] at h1; simp [bytesIndex, h1]
    | succ i' =>
      have := h2 0 (by omega)
      simp only [List.drop_nil] at h1 this
      rw [h1] at this
      cases this
  | cons b t ih =>
    cases i with
    | zero =>
      simp only [List.drop_zero] at h1
      simp [bytesIndex, h1]
    | succ i' =>
      have h0 : startsWith s (b :: t) = false := by simpa using h2 0 (by omega)
      have ht : bytesIndex s t = some i' := by
        apply ih
        · simpa using h1
        · intro j hj
          simpa using h2 (j + 1) (by omega)
      simp [bytesIndex, h0, ht]

theorem bytesIndex_eq_none {s d : List Nat}
    (h : ∀ j, startsWith s (d.drop j) = false) : bytesIndex s d = none := by
  induction d with
  | nil =>
    have h0 := h 0
    simp only [List.drop_nil] at h0
    simp [bytesIndex, h0]
  | cons b t ih =>
    have h0 : startsWith s (b :: t) = false := by simpa using h 0
    have ht : bytesIndex s t = none := ih fun j => by simpa using h (j + 1)
    simp [bytesIndex, h0, ht]

theorem drop_prefix_drop {p d : List Nat} (hp : p <+: d) (j : Nat) :
    p.drop j <+: d.drop j := by
  obtain ⟨t, rfl⟩ := hp
  rw [List.drop_append_eq_append_drop]
  exact ⟨t.drop (j - p.length), rfl⟩

theorem startsWith_of_drop_prefix {s p d : List Nat} {j : Nat} (hp : p <+: d)
    (h : startsWith s (p.drop j) = true) : startsWith s (d.drop j) = true :=
  startsWith_iff.mpr ((startsWith_iff.mp h).trans (drop_prefix_drop hp j))

theorem startsWith_drop_of_le {s p d : List Nat} {j : Nat} (hp : p <+: d)
    (h : startsWith s (d.drop j) = true) (hl : j + s.length ≤ p.length) :
    startsWith s (p.drop j) = true := by
  apply startsWith_iff.mpr
  apply List.prefix_of_prefix_length_le (startsWith_iff.mp h) (drop_prefix_drop hp j)
  simp only [List.length_drop]
  omega

theorem startsWith_drop_bound {s d : List Nat} {i : Nat} (hs : s ≠ [])
    (h : startsWith s (d.drop i) = true) : i + s.length ≤ d.length := by
  have h1 := startsWith_length h
  have h2 : s.length ≠ 0 := by
    intro h0
    exact hs (List.length_eq_zero.mp h0)
  simp only [List.length_drop] at h1
  omega

theorem bytesIndex_prefix_some {s p d : List Nat} {i : Nat} (hp : p <+: d)
    (hd : bytesIndex s d = some i) (hl : i + s.length ≤ p.length) :
    bytesIndex s p = some i := by
  obtain ⟨h1, h2⟩ := bytesIndex_some_spec hd
  apply bytesIndex_eq_some (startsWith_drop_of_le hp h1 hl)
  intro j hj
  cases hcase : startsWith s (p.drop j) with
  | false => rfl
  | true =>
    have := startsWith_of_drop_prefix hp hcase
    rw [h2 j hj] at this
    cases this

theorem bytesIndex_prefix_none {s p d : List Nat} (hp : p <+: d)
    (hd : bytesIndex s d = none) : bytesIndex s p = none := by
  apply bytesIndex_eq_none
  intro j
  cases hcase : startsWith s (p.drop j) with
  | false => rfl
  | true =>
    have := startsWith_of_drop_prefix hp hcase
    rw [bytesIndex_none_spec hd j] at this
    cases this

theorem drop_take_prefix_eq {p d : List Nat} (hp : p <+: d) {a k : Nat}
    (h : a + k ≤ p.length) : (p.drop a).take k = (d.drop a).take k := by
  obtain ⟨t, hpd⟩ := drop_prefix_drop hp a
  rw [← hpd, List.take_append_eq_append_take]
  have hk : k - (p.drop a).length = 0 := by
    simp only [List.length_drop]
    omega
  rw [hk]
  simp

theorem eval_no_term {data : List Nat}
    (h : bytesIndex Http.headerTerminator data = none) :
    Http.IsRequestComplete data = (false, none) := by
  unfold Http.IsRequestComplete
  rw [h]

theorem eval_term_no_cl {data : List Nat} {h : Nat}
    (hh : bytesIndex Http.headerTerminator data = some h)
    (hc : bytesIndex Http.contentLengthHeader data = none) :
    Http.IsRequestComplete data =
      if h + 4 = data.length then (true, none)
      else (false, some GoError.badRequest) := by
  unfold Http.IsRequestComplete
  rw [hh, hc]

theorem eval_term_cl_no_crlf {data : List Nat} {h c : Nat}
    (hh : bytesIndex Http.headerTerminator data = some h)
    (hc : bytesIndex Http.contentLengthHeader data = some c)
    (hr : bytesIndex Http.crlf (data.drop c) = none) :
    Http.IsRequestComplete data = (false, some GoError.badRequest) := by
  simp only [Http.IsRequestComplete, hh, hc, hr]

theorem eval_term_cl_parse_some {data : List Nat} {h c r : Nat} {clen : Int}
    (hh : bytesIndex Http.headerTerminator data = some h)
    (hc : bytesIndex Http.contentLengthHeader data = some c)
    (hr : bytesIndex Http.crlf (data.drop c) = some r)
    (hps : goParseInt64
        ((data.drop (c + Http.contentLengthHeaderLength)).take
          ((r + c) - (c + Http.contentLengthHeaderLength))) = some clen) :
    Http.IsRequestComplete data =
      if data.length ≤ h + 4 then (false, none)
      else if (data.length : Int) - ((h + 4 : Nat) : Int) < clen then (false, none)
      else (true, none) := by
  simp only [Http.IsRequestComplete, hh, hc, hr, hps]

theorem eval_term_cl_parse_fail {data : List Nat} {h c r : Nat}
    (hh : bytesIndex Http.headerTerminator data = some h)
    (hc : bytesIndex Http.contentLengthHeader data = some c)
    (hr : bytesIndex Http.crlf (data.drop c) = some r)
    (hps : goParseInt64
        ((data.drop (c + Http.contentLengthHeaderLength)).take
          ((r + c) - (c + Http.contentLengthHeaderLength))) = none) :
    Http.IsRequestComplete data =
      if data.length ≤ h + 4 then (false, none)
      else (false, some GoError.numError) := by
  simp only [Http.IsRequestComplete, hh, hc, hr, hps]

theorem term_len : Http.headerTerminator.length = 4 := rfl

theorem cl_len : Http.contentLengthHeader.length = 16 := rfl

theorem clhl_eq : Http.contentLengthHeaderLength = 16 := rfl

theorem crlf_len : Http.crlf.length = 2 := rfl

theorem term_ne : Http.headerTerminator ≠ [] := by decide

theorem startsWith_crlf_term (l : List Nat) :
    startsWith Http.crlf (Http.headerTerminator ++ l) = true := rfl

theorem wf_length {head body data : List Nat} {n : Nat}
    (hwf : WellFormedReq head body data n) :
    data.length = head.length + 4 + body.length := by
  rw [hwf.1]
  simp [Http.headerTerminator, Http.crlf]
  omega

theorem wf_drop_head {head body data : List Nat} {n : Nat}
    (hwf : WellFormedReq head body data n) :
    data.drop head.length = Http.headerTerminator ++ body := by
  rw [hwf.1, List.append_assoc]
  exact List.drop_left head (Http.headerTerminator ++ body)

theorem wf_prefix_incomplete {head body data : List Nat} {n : Nat}
    (hwf : WellFormedReq head body data n)
    {p : List Nat} (hp : p <+: data) (hlt : p.length < data.length) :
    Http.IsRequestComplete p = (false, none) := by
  obtain ⟨hdata, hterm, hcase⟩ := hwf
  have hwf' : WellFormedReq head body data n := ⟨hdata, hterm, hcase⟩
  have hdl := wf_length hwf'
  have hdropH := wf_drop_head hwf'
  obtain ⟨hT1, hT2⟩ := bytesIndex_some_spec hterm
  cases hTp : bytesIndex Http.headerTerminator p with
  | none => exact eval_no_term hTp
  | some j =>
    obtain ⟨hj1, hj2⟩ := bytesIndex_some_spec hTp
    have hjd : startsWith Http.headerTerminator (data.drop j) = true :=
      startsWith_of_drop_prefix hp hj1
    have hjge : head.length ≤ j := by
      by_contra hlt'
      push_neg at hlt'
      rw [hT2 j hlt'] at hjd
      cases hjd
    have hjb : j + 4 ≤ p.length := by
      have hb := startsWith_drop_bound term_ne hj1
      rw [term_len] at hb
      exact hb
    rcases hcase with ⟨hcnone, hbody⟩ | ⟨c, r, hc, hc16, hr, hparse, hblen, hn1⟩
    · exfalso
      rw [hbody] at hdl
      simp only [List.length_nil] at hdl
      omega
    · -- pin the terminator of p to the real header end
      have hSW : startsWith Http.headerTerminator (data.drop head.length) = true := by
        rw [hdropH]
        exact startsWith_iff.mpr ⟨body, rfl⟩
      have hjH : j = head.length := by
        by_contra hne
        have hHlt : head.length < j := by omega
        have hSWp : startsWith Http.headerTerminator (p.drop head.length) = true :=
          startsWith_drop_of_le hp hSW (by rw [term_len]; omega)
        rw [hj2 head.length hHlt] at hSWp
        cases hSWp
      subst hjH
      rw [clhl_eq] at hc16
      -- the first crlf at or after the token lies inside the header block
      obtain ⟨hr1, hr2⟩ := bytesIndex_some_spec hr
      have hrle : r ≤ head.length - c := by
        by_contra hgt
        push_neg at hgt
        have hd2 : (data.drop c).drop (head.length - c) = data.drop head.length := by
          rw [List.drop_drop]
          congr 1
          omega
        have hocc : startsWith Http.crlf ((data.drop c).drop (head.length - c)) = true := by
          rw [hd2, hdropH]
          have : Http.headerTerminator ++ body = Http.crlf ++ (Http.crlf ++ body) := by
            simp [Http.headerTerminator]
          rw [this]
          exact startsWith_iff.mpr ⟨Http.crlf ++ body, rfl⟩
        rw [hr2 _ hgt] at hocc
        cases hocc
      -- transfer the three searches down to the strict prefix p
      have hcp : bytesIndex Http.contentLengthHeader p = some c :=
        bytesIndex_prefix_some hp hc (by rw [cl_len]; omega)
      have hrp : bytesIndex Http.crlf (p.drop c) = some r := by
        apply bytesIndex_prefix_some (drop_prefix_drop hp c) hr
        simp only [List.length_drop]
        rw [crlf_len]
        omega
      have hslice :
          (p.drop (c + Http.contentLengthHeaderLength)).take
            ((r + c) - (c + Http.contentLengthHeaderLength)) =
          (data.drop (c + Http.contentLengthHeaderLength)).take
            ((r + c) - (c + Http.contentLengthHeaderLength)) := by
        apply drop_take_prefix_eq hp
        rw [clhl_eq]
        omega
      have hparse_p : goParseInt64
          ((p.drop (c + Http.contentLengthHeaderLength)).take
            ((r + c) - (c + Http.contentLengthHeaderLength))) = some (n : Int) := by
        rw [hslice]
        exact hparse
      rw [eval_term_cl_parse_some hTp hcp hrp hparse_p]
      by_cases hpl : p.length ≤ head.length + 4
      · rw [if_pos hpl]
      · rw [if_neg hpl]
        have hcmp : (p.length : Int) - ((head.length + 4 : Nat) : Int) < (n : Int) := by
          push_cast
          rw [hdl, hblen] at hlt
          omega
        rw [if_pos hcmp]

theorem wf_complete {head body data : List Nat} {n : Nat}
    (hwf : WellFormedReq head body data n) :
    Http.IsRequestComplete data = (true, none) := by
  obtain ⟨hdata, hterm, hcase⟩ := hwf
  have hdl := wf_length ⟨hdata, hterm, hcase⟩
  rcases hcase with ⟨hcnone, hbody⟩ | ⟨c, r, hc, hc16, hr, hparse, hblen, hn1⟩
  · rw [eval_term_no_cl hterm hcnone]
    rw [hbody] at hdl
    simp only [List.length_nil] at hdl
    rw [if_pos (by omega)]
  · rw [eval_term_cl_parse_some hterm hc hr hparse]
    rw [if_neg (by omega)]
    have hcmp : ¬((data.length : Int) - ((head.length + 4 : Nat) : Int) < (n : Int)) := by
      push_cast
      omega
    rw [if_neg hcmp]

theorem joinChunks_ne_nil {chunks : List (List Nat)} (hne : chunks ≠ [])
    (hall : ∀ ch ∈ chunks, ch ≠ []) : joinChunks chunks ≠ [] := by
  cases chunks with
  | nil => exact absurd rfl hne
  | cons ch rest =>
    have hch : ch ≠ [] := hall ch (by simp)
    simp only [joinChunks]
    intro h
    rcases List.append_eq_nil.mp h with ⟨h1, _⟩
    exact hch h1

theorem wf_feed {head body data : List Nat} {n : Nat}
    (hwf : WellFormedReq head body data n) :
    ∀ chunks : List (List Nat), ∀ buf : List Nat,
      buf ++ joinChunks chunks = data → chunks ≠ [] →
      (∀ ch ∈ chunks, ch ≠ []) → buf.length < data.length →
      feedChunks buf chunks = FeedOutcome.done data := by
  intro chunks
  induction chunks with
  | nil =>
    intro buf _ hne _ _
    exact absurd rfl hne
  | cons ch rest ih =>
    intro buf hjoin _ hall _
    cases rest with
    | nil =>
      have hdataeq : buf ++ ch = data := by
        simpa [joinChunks] using hjoin
      simp only [feedChunks]
      rw [hdataeq, wf_complete hwf]
    | cons r2 rs =>
      have hrne : joinChunks (r2 :: rs) ≠ [] :=
        joinChunks_ne_nil (by simp) (fun c hc => hall c (List.mem_cons_of_mem ch hc))
      have hassoc : (buf ++ ch) ++ joinChunks (r2 :: rs) = data := by
        rw [List.append_assoc]
        simpa [joinChunks] using hjoin
      have hppre : (buf ++ ch) <+: data := ⟨joinChunks (r2 :: rs), hassoc⟩
      have hplt : (buf ++ ch).length < data.length := by
        have hlen := congrArg List.length hassoc
        simp only [List.length_append] at hlen
        have hpos : 0 < (joinChunks (r2 :: rs)).length :=
          List.length_pos.mpr hrne
        simp only [List.length_append]
        omega
      simp only [feedChunks]
      rw [wf_prefix_incomplete hwf hppre hplt]
      exact ih (buf ++ ch) hassoc (by simp) (fun c hc => hall c (List.mem_cons_of_mem ch hc)) hplt

/-- C3, counterexample to the claim as stated.  A buffer with terminator and
the unparseable `Content-Length` value `12a` but no body bytes yet evaluates
to INCOMPLETE `(false, none)`, not MALFORMED: the body-started check precedes
the value parse.  And a negative value `-5` is accepted by
`strconv.ParseInt` and even yields COMPLETE, not MALFORMED. -/
theorem c3_counterexample :
    Http.IsRequestComplete
        (strBytes "POST / HTTP/1.1\r\nContent-Length: 12a\r\n\r\n") = (false, none)
    ∧ Http.IsRequestComplete
        (strBytes "POST / HTTP/1.1\r\nContent-Length: -5\r\n\r\nx") = (true, none) := by
  constructor
  · decide
  · decide

/-- C3 (amended): with the header terminator present, a `Content-Length`
token present and its line break found, a value that `strconv.ParseInt`
rejects yields MALFORMED only when at least one body byte has already
arrived past the terminator; when the terminator ends the buffer the value
is never parsed and the verdict is INCOMPLETE. -/
theorem c3_amended_unparseable_value
    (data : List Nat) (h c r : Nat)
    (hh : bytesIndex Http.headerTerminator data = some h)
    (hc : bytesIndex Http.contentLengthHeader data = some c)
    (hr : bytesIndex Http.crlf (data.drop c) = some r)
    (hps : goParseInt64
        ((data.drop (c + Http.contentLengthHeaderLength)).take
          ((r + c) - (c + Http.contentLengthHeaderLength))) = none) :
    (h + 4 < data.length →
      Http.IsRequestComplete data = (false, some GoError.numError))
    ∧ (data.length ≤ h + 4 → Http.IsRequestComplete data = (false, none)) := by
  rw [eval_term_cl_parse_fail hh hc hr hps]
  constructor
  · intro hlt
    rw [if_neg (by omega)]
  · intro hle
    rw [if_pos hle]

/-- C3 witness: the `12a` buffer with one body byte is MALFORMED by the
amended theorem. -/
theorem c3_witness :
    Http.IsRequestComplete
        (strBytes "POST / HTTP/1.1\r\nContent-Length: 12a\r\n\r\nx")
      = (false, some GoError.numError) :=
  (c3_amended_unparseable_value _ 36 17 19 (by decide) (by decide) (by decide)
    (by decide)).1 (by decide)

/-- C4: the `Content-Length` token search runs over the whole buffer, not
only the region before the header terminator.  In this buffer the only
occurrence of `"Content-Length: "` starts at index 19, strictly past the
header end `15 + 4`, i.e. inside the body — yet both backends frame the
buffer as COMPLETE instead of rejecting it as MALFORMED
(body present, no declared length in the headers). -/
theorem c4_token_in_body_counts :
    bytesIndex Http.headerTerminator
        (strBytes "POST / HTTP/1.1\r\n\r\nContent-Length: 0\r\n") = some 15
    ∧ bytesIndex Http.contentLengthHeader
        (strBytes "POST / HTTP/1.1\r\n\r\nContent-Length: 0\r\n") = some 19
    ∧ Http.IsRequestComplete
        (strBytes "POST / HTTP/1.1\r\n\r\nContent-Length: 0\r\n") = (true, none)
    ∧ Evio.isRequestComplete
        (strBytes "POST / HTTP/1.1\r\n\r\nContent-Length: 0\r\n") = (true, none) := by
  refine ⟨by decide, by decide, by decide, by decide⟩

/-- C6: with the header terminator present and no `Content-Length` token in
the buffer, the verdict is COMPLETE exactly when the terminator ends the
buffer, and MALFORMED (`errBadRequest`) when any bytes follow it. -/
theorem c6_no_content_length
    (data : List Nat) (h : Nat)
    (hh : bytesIndex Http.headerTerminator data = some h)
    (hc : bytesIndex Http.contentLengthHeader data = none) :
    (h + 4 = data.length → Http.IsRequestComplete data = (true, none))
    ∧ (h + 4 < data.length →
        Http.IsRequestComplete data = (false, some GoError.badRequest)) := by
  rw [eval_term_no_cl hh hc]
  constructor
  · intro he
    rw [if_pos he]
  · intro hlt
    rw [if_neg (by omega)]

/-- C6 witness: a header-only GET is COMPLETE the instant the terminator is
seen; a body with no declared length is MALFORMED. -/
theorem c6_witness :
    Http.IsRequestComplete (strBytes "GET / HTTP/1.1\r\n\r\n") = (true, none)
    ∧ Http.IsRequestComplete (strBytes "POST / HTTP/1.1\r\n\r\nhello")
      = (false, some GoError.badRequest) :=
  ⟨(c6_no_content_length _ 14 (by decide) (by decide)).1 (by decide),
   (c6_no_content_length _ 15 (by decide) (by decide)).2 (by decide)⟩

/-- C7, counterexample to the claim as stated.  `Content-Length: 0` with the
terminator ending the buffer: at least `n = 0` body bytes have arrived, so
the claim demands COMPLETE, but the code returns INCOMPLETE — the
body-started check `htEndIdx >= len(data)` fires before the length
comparison, so a zero-length declared body never completes. -/
theorem c7_counterexample :
    goParseInt64 (strBytes "0") = some 0
    ∧ Http.IsRequestComplete
        (strBytes "PUT /x HTTP/1.1\r\nContent-Length: 0\r\n\r\n") = (false, none) := by
  constructor
  · decide
  · decide

/-- C7 (amended): with terminator, token, line break and a parseable value
`n`: while fewer than `n` bytes follow the terminator the verdict is
INCOMPLETE; once at least `n` bytes follow it AND at least one byte follows
it, the verdict is COMPLETE; with zero bytes after the terminator the
verdict is INCOMPLETE even when `n = 0`. -/
theorem c7_amended_body_threshold
    (data : List Nat) (h c r : Nat) (n : Int)
    (hh : bytesIndex Http.headerTerminator data = some h)
    (hc : bytesIndex Http.contentLengthHeader data = some c)
    (hr : bytesIndex Http.crlf (data.drop c) = some r)
    (hps : goParseInt64
        ((data.drop (c + Http.contentLengthHeaderLength)).take
          ((r + c) - (c + Http.contentLengthHeaderLength))) = some n) :
    (data.length ≤ h + 4 → Http.IsRequestComplete data = (false, none))
    ∧ (h + 4 < data.length → (data.length : Int) - ((h + 4 : Nat) : Int) < n →
        Http.IsRequestComplete data = (false, none))
    ∧ (h + 4 < data.length → n ≤ (data.length : Int) - ((h + 4 : Nat) : Int) →
        Http.IsRequestComplete data = (true, none)) := by
  rw [eval_term_cl_parse_some hh hc hr hps]
  refine ⟨?_, ?_, ?_⟩
  · intro hle
    rw [if_pos hle]
  · intro hlt hn
    rw [if_neg (by omega), if_pos hn]
  · intro hlt hn
    rw [if_neg (by omega), if_neg (by omega)]

/-- C7 witness: `Content-Length: 5` with 3 body bytes is INCOMPLETE; with
all 5 body bytes it is COMPLETE. -/
theorem c7_witness :
    Http.IsRequestComplete
        (strBytes "POST / HTTP/1.1\r\nContent-Length: 5\r\n\r\nhel") = (false, none)
    ∧ Http.IsRequestComplete
        (strBytes "POST / HTTP/1.1\r\nContent-Length: 5\r\n\r\nhello") = (true, none) :=
  ⟨(c7_amended_body_threshold _ 34 17 17 5 (by decide) (by decide) (by decide)
      (by decide)).2.1 (by decide) (by decide),
   (c7_amended_body_threshold _ 34 17 17 5 (by decide) (by decide) (by decide)
      (by decide)).2.2 (by decide) (by decide)⟩

/-- C8: the framing verdict is a pure, deterministic function of the buffer
contents alone — two buffers with equal contents get equal verdicts.  In
this shallow embedding purity is inherent: the Go function reads only its
argument and package-level constants and writes through nothing. -/
theorem c8_evaluate_pure (b b2 : List Nat) (v : Bool × Option GoError)
    (hb : Http.IsRequestComplete b = v) (heq : b2 = b) :
    Http.IsRequestComplete b2 = v :=
  heq ▸ hb

/-- C8 witness. -/
theorem c8_witness :
    Http.IsRequestComplete (strBytes "GET / HTTP/1.1\r\n\r\n") = (true, none) :=
  c8_evaluate_pure _ _ _ (by decide) rfl

/-- C9: the two framing functions duplicated across the two reactor
backends compute the same function: same completeness boolean and the same
(non-)error on every byte sequence. -/
theorem c9_backends_agree (b : List Nat) :
    Http.IsRequestComplete b = Evio.isRequestComplete b := rfl

/-- C10: the token match is an exact byte comparison against
`"Content-Length: "`; a lowercase `content-length: 5` or a missing space
`Content-Length:5` is not found (`bytesIndex … = none`), so such a buffer
with a body is judged MALFORMED instead of being framed by its declared
length. -/
theorem c10_exact_token_match :
    Http.contentLengthHeader = strBytes "Content-Length: "
    ∧ bytesIndex Http.contentLengthHeader
        (strBytes "POST / HTTP/1.1\r\ncontent-length: 5\r\n\r\nhello") = none
    ∧ bytesIndex Http.contentLengthHeader
        (strBytes "POST / HTTP/1.1\r\nContent-Length:5\r\n\r\nhello") = none
    ∧ Http.IsRequestComplete
        (strBytes "POST / HTTP/1.1\r\ncontent-length: 5\r\n\r\nhello")
      = (false, some GoError.badRequest)
    ∧ Http.IsRequestComplete
        (strBytes "POST / HTTP/1.1\r\nContent-Length:5\r\n\r\nhello")
      = (false, some GoError.badRequest) := by
  refine ⟨by decide, by decide, by decide, by decide, by decide⟩

/-- C1, counterexample to the claim as stated.  A single read delivering one
complete `Content-Length: 5` request plus 18 extra pipelined bytes (a second
GET request) reaches the COMPLETE verdict, and `React` resets the connection
context to the empty buffer: the extra bytes are discarded, not left for the
next framing pass. -/
theorem c1_counterexample :
    Http.IsRequestComplete
        (strBytes "POST / HTTP/1.1\r\nContent-Length: 5\r\n\r\nhello") = (true, none)
    ∧ strBytes "GET / HTTP/1.1\r\n\r\n" ≠ []
    ∧ (Gnet.React false (fun _ => some (strBytes "HTTP/1.1 200 OK\r\n\r\n")) []
        (strBytes "POST / HTTP/1.1\r\nContent-Length: 5\r\n\r\nhello"
          ++ strBytes "GET / HTTP/1.1\r\n\r\n")).ctx = [] := by
  refine ⟨by decide, by decide, by decide⟩

/-- C1 (amended): bytes are preserved across callbacks only while the
verdict is INCOMPLETE (the stored buffer becomes exactly prior-bytes ++
input).  On a COMPLETE verdict with a successful dispatch and shutdown
unset, `React` resets the stored buffer to empty, discarding any extra
pipelined bytes that lay beyond the declared body length in the
accumulated buffer. -/
theorem c1_complete_discards_leftover
    (dispatch : List Nat → Option (List Nat)) (buf input resp : List Nat)
    (hne : input ≠ [])
    (hco : Http.IsRequestComplete (buf ++ input) = (true, none))
    (hdi : dispatch (buf ++ input) = some resp) :
    Gnet.React false dispatch buf input = ⟨resp, GoAction.normal, []⟩
    ∧ (∀ buf2 input2 : List Nat, input2 ≠ [] →
        Http.IsRequestComplete (buf2 ++ input2) = (false, none) →
        Gnet.React false dispatch buf2 input2
          = ⟨[], GoAction.normal, buf2 ++ input2⟩) := by
  constructor
  · have hlen : ¬(input.length = 0) := fun h => hne (List.length_eq_zero.mp h)
    simp only [Gnet.React, streamBegin, streamEnd, if_neg hlen, hco, hdi]
    rfl
  · intro buf2 input2 hne2 hinc
    have hlen2 : ¬(input2.length = 0) := fun h => hne2 (List.length_eq_zero.mp h)
    simp only [Gnet.React, streamBegin, streamEnd, if_neg hlen2, hinc]

/-- C1 witness: concrete pipelined read through the amended theorem. -/
theorem c1_witness :
    Gnet.React false (fun _ => some (strBytes "HTTP/1.1 200 OK\r\n\r\n")) []
        (strBytes "POST / HTTP/1.1\r\nContent-Length: 5\r\n\r\nhelloGET / HTTP/1.1\r\n\r\n")
      = ⟨strBytes "HTTP/1.1 200 OK\r\n\r\n", GoAction.normal, []⟩ :=
  (c1_complete_discards_leftover (fun _ => some (strBytes "HTTP/1.1 200 OK\r\n\r\n"))
    [] (strBytes "POST / HTTP/1.1\r\nContent-Length: 5\r\n\r\nhelloGET / HTTP/1.1\r\n\r\n")
    (strBytes "HTTP/1.1 200 OK\r\n\r\n") (by decide) (by decide) rfl).1

/-- C2, counterexample to the claim as stated.  Under shutdown, the evio
backend's readable callback on a buffer that frames COMPLETE returns `nil`
bytes together with `Close`: the serialized response (nonempty here) is
discarded, not emitted before closing. -/
theorem c2_counterexample :
    Evio.isRequestComplete (strBytes "GET / HTTP/1.1\r\n\r\n") = (true, none)
    ∧ strBytes "HTTP/1.1 200 OK\r\n\r\n" ≠ []
    ∧ (Evio.Data true (fun _ => some (strBytes "HTTP/1.1 200 OK\r\n\r\n")) []
        (strBytes "GET / HTTP/1.1\r\n\r\n")).out = [] := by
  refine ⟨by decide, by decide, by decide⟩

/-- C2 (amended): when the shutdown signal is set, both backends' open
callbacks immediately close the new connection.  On a readable callback
whose buffer frames COMPLETE with a successful dispatch, the gnet backend
returns the serialized response together with `Close` (graceful drain), but
the evio backend returns no bytes with `Close`, discarding the response. -/
theorem c2_shutdown_drain_divergence
    (dispatch : List Nat → Option (List Nat)) (buf input resp : List Nat)
    (hne : input ≠ [])
    (hco : Http.IsRequestComplete (buf ++ input) = (true, none))
    (hco2 : Evio.isRequestComplete (buf ++ input) = (true, none))
    (hdi : dispatch (buf ++ input) = some resp) :
    Gnet.OnOpened true = ([], GoAction.close)
    ∧ Evio.Opened true = ([], GoAction.close)
    ∧ Gnet.React true dispatch buf input = ⟨resp, GoAction.close, buf ++ input⟩
    ∧ Evio.Data true dispatch buf input = ⟨[], GoAction.close, buf ++ input⟩ := by
  have hlen : ¬(input.length = 0) := fun h => hne (List.length_eq_zero.mp h)
  refine ⟨rfl, rfl, ?_, ?_⟩
  · simp only [Gnet.React, streamBegin, streamEnd, if_neg hlen, hco, hdi]
    rfl
  · simp only [Evio.Data, streamBegin, streamEnd, if_neg hlen, hco2, hdi]
    rfl

/-- C2 witness: concrete complete GET under shutdown on both backends. -/
theorem c2_witness :
    Gnet.React true (fun _ => some (strBytes "HTTP/1.1 200 OK\r\n\r\n")) []
        (strBytes "GET / HTTP/1.1\r\n\r\n")
      = ⟨strBytes "HTTP/1.1 200 OK\r\n\r\n", GoAction.close, strBytes "GET / HTTP/1.1\r\n\r\n"⟩
    ∧ Evio.Data true (fun _ => some (strBytes "HTTP/1.1 200 OK\r\n\r\n")) []
        (strBytes "GET / HTTP/1.1\r\n\r\n")
      = ⟨[], GoAction.close, strBytes "GET / HTTP/1.1\r\n\r\n"⟩ := by
  have h := c2_shutdown_drain_divergence (fun _ => some (strBytes "HTTP/1.1 200 OK\r\n\r\n"))
    [] (strBytes "GET / HTTP/1.1\r\n\r\n") (strBytes "HTTP/1.1 200 OK\r\n\r\n")
    (by decide) (by decide) (by decide) rfl
  exact ⟨h.2.2.1, h.2.2.2⟩

/-- C5, counterexample to the claim as stated.  The well-formed request
`POST / HTTP/1.1\r\nContent-Length: 0\r\n\r\n` (declared body length 0,
fully arrived), fed whole as a single chunk, never reaches a COMPLETE
verdict: the framer leaves it pending as INCOMPLETE forever, so there is no
"final COMPLETE verdict" for chunked feeding to agree with. -/
theorem c5_counterexample :
    feedChunks [] [strBytes "POST / HTTP/1.1\r\nContent-Length: 0\r\n\r\n"]
      = FeedOutcome.pending (strBytes "POST / HTTP/1.1\r\nContent-Length: 0\r\n\r\n")
    ∧ Http.IsRequestComplete (strBytes "POST / HTTP/1.1\r\nContent-Length: 0\r\n\r\n")
      = (false, none) := by
  constructor
  · decide
  · decide

/-- C5 (amended): for every well-formed request whose declared body length
is at least 1, or which has no `Content-Length` token and an empty body
(`WellFormedReq`): the whole request evaluates COMPLETE; every strict
prefix evaluates INCOMPLETE (never MALFORMED); and feeding any splitting of
the request into non-empty chunks through sequential begin/evaluate/end
cycles stops exactly at the last chunk with the same COMPLETE verdict and
the same framed bytes as feeding the whole request in one chunk. -/
theorem c5_amended_chunk_invariance
    {head body data : List Nat} {n : Nat}
    (hwf : WellFormedReq head body data n) :
    Http.IsRequestComplete data = (true, none)
    ∧ (∀ p, p <+: data → p ≠ data → Http.IsRequestComplete p = (false, none))
    ∧ (∀ chunks : List (List Nat), chunks ≠ [] → (∀ ch ∈ chunks, ch ≠ []) →
        joinChunks chunks = data → feedChunks [] chunks = FeedOutcome.done data) := by
  refine ⟨wf_complete hwf, ?_, ?_⟩
  · intro p hp hne
    apply wf_prefix_incomplete hwf hp
    have hle := hp.length_le
    rcases Nat.lt_or_ge p.length data.length with hlt | hge
    · exact hlt
    · exact absurd (hp.eq_of_length (by omega)) hne
  · intro chunks hcne hall hjoin
    apply wf_feed hwf chunks [] (by simpa using hjoin) hcne hall
    have hl := wf_length hwf
    simp only [List.length_nil]
    omega

/-- C5 witness: a concrete `Content-Length: 5` request split into three
uneven chunks frames to the same COMPLETE verdict and the same framed
buffer as the unsplit request. -/
theorem c5_witness :
    feedChunks []
        [strBytes "POST / HT", strBytes "TP/1.1\r\nContent-Length: 5\r\n\r\nhe",
         strBytes "llo"]
      = FeedOutcome.done (strBytes "POST / HTTP/1.1\r\nContent-Length: 5\r\n\r\nhello") := by
  have h := @c5_amended_chunk_invariance
    (strBytes "POST / HTTP/1.1\r\nContent-Length: 5") (strBytes "hello")
    (strBytes "POST / HTTP/1.1\r\nContent-Length: 5\r\n\r\nhello") 5
    ⟨by decide, by decide,
     Or.inr ⟨17, 17, by decide, by decide, by decide, by decide, by decide, by decide⟩⟩
  exact h.2.2 _ (by decide) (by decide) (by decide)
